import Mathlib

set_option maxRecDepth 100000

/-!
# Verification of the pngme chunk codec

Shallow embedding of `src/chunk_type.rs` and `src/chunk.rs`.
Bytes are modelled as `Nat` (with `< 256` hypotheses where the `u8` range
matters); `u32` arithmetic carries explicit `% 2^32`.
Fallible Rust functions return `Except`; a Rust panic (out-of-bounds slice
index) is modelled by the distinguished error `ChunkError.oobPanic`.
-/

namespace Pngme

/-! ## CRC-32/ISO-HDLC

Model of `crc::Crc::<u32>::new(&crc::CRC_32_ISO_HDLC).checksum`, the
reflected (refin/refout) CRC-32 with polynomial 0x04C11DB7, init and xorout
0xFFFFFFFF.  The reflected bit-at-a-time form uses the reversed polynomial
0xEDB88320.
-/

def CRC_POLY : Nat := 0xEDB88320

/-- One reflected CRC shift step on the 32-bit state. -/
def crcStep (s : Nat) : Nat :=
  if s % 2 = 1 then (s / 2) ^^^ CRC_POLY else s / 2

/-- Iterate `crcStep` a given number of times. -/
def crcShift : Nat → Nat → Nat
  | 0, s => s
  | n + 1, s => crcShift n (crcStep s)

/-- Absorb one input byte into the CRC state: xor it in, then shift 8 times. -/
def crcUpd (s c : Nat) : Nat := crcShift 8 (s ^^^ c)

/-- CRC-32/ISO-HDLC of a byte sequence. -/
def crc32 (data : List Nat) : Nat :=
  (data.foldl crcUpd 0xFFFFFFFF) ^^^ 0xFFFFFFFF

/-! ## ChunkType (`src/chunk_type.rs`) -/

structure ChunkType where
  b0 : Nat
  b1 : Nat
  b2 : Nat
  b3 : Nat
deriving DecidableEq, Repr

/-- Rust `ChunkType::bytes`: the 4 stored bytes. -/
def ChunkType.bytes (t : ChunkType) : List Nat := [t.b0, t.b1, t.b2, t.b3]

inductive CtError where
  | badLength
deriving DecidableEq, Repr

/-- Rust `impl TryFrom<[u8;4]> for ChunkType`: given 4 bytes it always succeeds
(the Rust code performs no validation on this path).  The `badLength` branch
models `clone_from_slice` arity (unreachable from a `[u8;4]`). -/
def ChunkType.try_from (b : List Nat) : Except CtError ChunkType :=
  match b with
  | [x0, x1, x2, x3] => .ok ⟨x0, x1, x2, x3⟩
  | _ => .error .badLength

/-- Rust `char::is_ascii_alphabetic`. -/
def char_is_ascii_alphabetic (c : Char) : Bool :=
  (65 ≤ c.toNat && c.toNat ≤ 90) || (97 ≤ c.toNat && c.toNat ≤ 122)

/-- The same predicate on a byte value. -/
def byte_is_ascii_alphabetic (b : Nat) : Bool :=
  (65 ≤ b && b ≤ 90) || (97 ≤ b && b ≤ 122)

/-- UTF-8 encoding of one character (Rust `str` bytes are UTF-8). -/
def charUtf8 (c : Char) : List Nat :=
  let n := c.toNat
  if n < 0x80 then [n]
  else if n < 0x800 then [0xC0 + n / 64, 0x80 + n % 64]
  else if n < 0x10000 then
    [0xE0 + n / 4096, 0x80 + n / 64 % 64, 0x80 + n % 64]
  else
    [0xF0 + n / 262144, 0x80 + n / 4096 % 64, 0x80 + n / 64 % 64, 0x80 + n % 64]

/-- Rust `str::as_bytes` on a string modelled as its character sequence. -/
def strBytes (s : List Char) : List Nat := s.flatMap charUtf8

inductive StrError where
  | notFourBytes
  | notAlphabetic
deriving DecidableEq, Repr

/-- Rust `impl FromStr for ChunkType`: rejects strings whose UTF-8 byte length is
not 4 (`s.len() != 4`), then strings with a non-ASCII-alphabetic character;
otherwise copies the 4 bytes. -/
def ChunkType.from_str (s : List Char) : Except StrError ChunkType :=
  if (strBytes s).length ≠ 4 then .error .notFourBytes
  else if ¬ (s.all char_is_ascii_alphabetic) then .error .notAlphabetic
  else
    let bs := strBytes s
    .ok ⟨bs.getD 0 0, bs.getD 1 0, bs.getD 2 0, bs.getD 3 0⟩

/-- Rust `(b as char).is_uppercase()` for a byte `b`: the Unicode `Uppercase`
property restricted to code points below 256 (`A`–`Z` plus the Latin-1
uppercase letters). -/
def is_uppercase (b : Nat) : Bool :=
  (65 ≤ b && b ≤ 90) || (192 ≤ b && b ≤ 214) || (216 ≤ b && b ≤ 222)

/-- Rust `(b as char).is_lowercase()` for a byte `b`: the Unicode `Lowercase`
property restricted to code points below 256 (`a`–`z`, ª, µ, º and the
Latin-1 lowercase letters). -/
def is_lowercase (b : Nat) : Bool :=
  (97 ≤ b && b ≤ 122) || b == 170 || b == 181 || b == 186 ||
    (223 ≤ b && b ≤ 246) || (248 ≤ b && b ≤ 255)

/-- Rust `ChunkType::is_critical`: first byte uppercase. -/
def ChunkType.is_critical (t : ChunkType) : Bool := is_uppercase t.b0

/-- Rust `ChunkType::is_public`: second byte uppercase. -/
def ChunkType.is_public (t : ChunkType) : Bool := is_uppercase t.b1

/-- Rust `ChunkType::is_reserved_bit_valid`: third byte uppercase. -/
def ChunkType.is_reserved_bit_valid (t : ChunkType) : Bool := is_uppercase t.b2

/-- Rust `ChunkType::is_safe_to_copy`: fourth byte lowercase. -/
def ChunkType.is_safe_to_copy (t : ChunkType) : Bool := is_lowercase t.b3

/-- Rust `ChunkType::is_valid`: not public and reserved-bit valid. -/
def ChunkType.is_valid (t : ChunkType) : Bool :=
  !t.is_public && t.is_reserved_bit_valid

/-! ## Chunk (`src/chunk.rs`) -/

structure Chunk where
  chunk_type : ChunkType
  data : List Nat
  bytes : List Nat
deriving DecidableEq, Repr

/-- Rust `Chunk::new`: stores the payload both as `data` and as `bytes`
(the Rust code initialises `bytes: data`). -/
def Chunk.new (t : ChunkType) (d : List Nat) : Chunk :=
  { chunk_type := t, data := d, bytes := d }

/-- Rust `Chunk::length`: the payload byte count cast to `u32` (truncating). -/
def Chunk.length (c : Chunk) : Nat := c.data.length % 2 ^ 32

/-- Rust `Chunk::crc`: CRC-32 over the 4 type bytes followed by the payload. -/
def Chunk.crc (c : Chunk) : Nat := crc32 (c.chunk_type.bytes ++ c.data)

/-- Rust `u32::to_be_bytes`: the 4 big-endian bytes of a 32-bit value. -/
def u32be (n : Nat) : List Nat :=
  [n / 16777216 % 256, n / 65536 % 256, n / 256 % 256, n % 256]

/-- Rust `Chunk::as_bytes`: big-endian length, type bytes, payload, big-endian
CRC, all recomputed from the current fields. -/
def Chunk.as_bytes (c : Chunk) : List Nat :=
  u32be c.length ++ c.chunk_type.bytes ++ c.data ++ u32be c.crc

inductive ChunkError where
  /-- An out-of-bounds slice index: the Rust code panics. -/
  | oobPanic
  /-- A failure propagated from `ChunkType::try_from` (never produced). -/
  | typeFormat
  /-- The checksum-mismatch bail in the Rust source. -/
  | crcMismatch
deriving DecidableEq, Repr

/-- Rust slice `&v[a..b]`: defined when `a ≤ b ≤ v.len()`, else a panic. -/
def rslice (v : List Nat) (a b : Nat) : Option (List Nat) :=
  if a ≤ b ∧ b ≤ v.length then some ((v.drop a).take (b - a)) else none

/-- Rust `impl TryFrom<&[u8]> for Chunk`: reads the type from `value[4..8]`, the
payload from `value[8..len-4]`, the stored CRC from `value[len-4..]`, and
fails unless the stored CRC equals the recomputed one.  Note `len - 4` is
`Nat` truncated subtraction; for `len < 4` Rust's `usize` subtraction wraps
and the slice panics, which the model reports as `oobPanic` all the same. -/
def Chunk.try_from (value : List Nat) : Except ChunkError Chunk :=
  match rslice value 4 8 with
  | none => .error .oobPanic
  | some tb =>
    match ChunkType.try_from tb with
    | .error _ => .error .typeFormat
    | .ok ct =>
      match rslice value 8 (value.length - 4) with
      | none => .error .oobPanic
      | some d =>
        match rslice value (value.length - 4) value.length with
        | none => .error .oobPanic
        | some crcBytes =>
          let chunk : Chunk := { chunk_type := ct, data := d, bytes := value }
          if crcBytes = u32be chunk.crc then .ok chunk
          else .error .crcMismatch

/-- Whether an `Except` result is `ok`. -/
def exceptIsOk {ε α : Type} (r : Except ε α) : Bool :=
  match r with
  | .ok _ => true
  | .error _ => false

instance {ε α : Type} [DecidableEq ε] [DecidableEq α] : DecidableEq (Except ε α) :=
  fun a b =>
  match a, b with
  | .ok x, .ok y =>
    if h : x = y then .isTrue (by rw [h]) else .isFalse (by intro hc; cases hc; exact h rfl)
  | .error x, .error y =>
    if h : x = y then .isTrue (by rw [h]) else .isFalse (by intro hc; cases hc; exact h rfl)
  | .ok _, .error _ => .isFalse (by intro hc; cases hc)
  | .error _, .ok _ => .isFalse (by intro hc; cases hc)

/-! ## Concrete byte vectors used in witnesses and counterexamples -/

/-- The payload bytes of the reference test vector
`"This is where your secret message will be!"`. -/
def secret_message_bytes : List Nat :=
  (String.toList "This is where your secret message will be!").map Char.toNat

/-- A well-formed 12-byte serialized chunk: length 0, type `"RuSt"`, empty
payload, and the matching CRC `crc32 [82,117,83,116] = 3565422908`. -/
def sampleChunkBytes : List Nat := [0, 0, 0, 0, 82, 117, 83, 116, 212, 132, 9, 60]

/-- The same chunk with a lying length field (1 instead of 0): the parser
never validates the length field, so parsing still succeeds. -/
def badLenChunkBytes : List Nat := [0, 0, 0, 1, 82, 117, 83, 116, 212, 132, 9, 60]

/-! ## CRC-32 lemmas

The single-bit-flip sensitivity of the checksum rests on the fact that one
reflected CRC shift step is injective on 32-bit states, which holds because
the reversed polynomial has its top bit set.
-/

theorem xor_left_cancel {a b c : Nat} (h : a ^^^ b = a ^^^ c) : b = c := by
  have h2 := congrArg (fun x => a ^^^ x) h
  simpa [← Nat.xor_assoc, Nat.xor_self, Nat.zero_xor] using h2

theorem xor_right_cancel {a b c : Nat} (h : a ^^^ c = b ^^^ c) : a = b := by
  have h2 := congrArg (fun x => x ^^^ c) h
  simpa [Nat.xor_assoc, Nat.xor_self, Nat.xor_zero] using h2

theorem xor_two_pow_ne (c k : Nat) : c ^^^ 2 ^ k ≠ c := by
  intro h
  have h2 := congrArg (fun x => x.testBit k) h
  simp [Nat.testBit_xor, Nat.testBit_two_pow_self] at h2

theorem CRC_POLY_lt : CRC_POLY < 2 ^ 32 := by unfold CRC_POLY; norm_num

theorem crcStep_lt {s : Nat} (h : s < 2 ^ 32) : crcStep s < 2 ^ 32 := by
  unfold crcStep
  split
  · exact Nat.xor_lt_two_pow (by omega) CRC_POLY_lt
  · omega

theorem testBit31_crcStep {s : Nat} (h : s < 2 ^ 32) :
    (crcStep s).testBit 31 = decide (s % 2 = 1) := by
  have h2 : s / 2 < 2 ^ 31 := by omega
  have hlow : (s / 2).testBit 31 = false := Nat.testBit_lt_two_pow h2
  have hP : CRC_POLY.testBit 31 = true := by decide
  unfold crcStep
  split
  · rename_i hs
    rw [Nat.testBit_xor, hlow, hP]
    simp [hs]
  · rename_i hs
    rw [hlow]
    simp
    omega

theorem crcStep_inj {s t : Nat} (hs : s < 2 ^ 32) (ht : t < 2 ^ 32)
    (h : crcStep s = crcStep t) : s = t := by
  have hbit := congrArg (fun x => x.testBit 31) h
  simp only [testBit31_crcStep hs, testBit31_crcStep ht, decide_eq_decide] at hbit
  unfold crcStep at h
  by_cases hs1 : s % 2 = 1
  · have ht1 : t % 2 = 1 := hbit.mp hs1
    rw [if_pos hs1, if_pos ht1] at h
    have h3 := xor_right_cancel h
    omega
  · have ht1 : ¬t % 2 = 1 := fun hh => hs1 (hbit.mpr hh)
    rw [if_neg hs1, if_neg ht1] at h
    omega

theorem crcShift_lt {s : Nat} (n : Nat) (h : s < 2 ^ 32) : crcShift n s < 2 ^ 32 := by
  induction n generalizing s with
  | zero => simpa [crcShift] using h
  | succ n ih => exact ih (crcStep_lt h)

theorem crcShift_inj {s t : Nat} (n : Nat) (hs : s < 2 ^ 32) (ht : t < 2 ^ 32)
    (h : crcShift n s = crcShift n t) : s = t := by
  induction n generalizing s t with
  | zero => simpa [crcShift] using h
  | succ n ih => exact crcStep_inj hs ht (ih (crcStep_lt hs) (crcStep_lt ht) h)

theorem byte_lt_u32 {c : Nat} (hc : c < 256) : c < 2 ^ 32 := by omega

theorem crcUpd_lt {s c : Nat} (hs : s < 2 ^ 32) (hc : c < 256) : crcUpd s c < 2 ^ 32 :=
  crcShift_lt 8 (Nat.xor_lt_two_pow hs (byte_lt_u32 hc))

theorem crcUpd_inj_state {s t c : Nat} (hs : s < 2 ^ 32) (ht : t < 2 ^ 32) (hc : c < 256)
    (h : crcUpd s c = crcUpd t c) : s = t := by
  have h2 := crcShift_inj 8 (Nat.xor_lt_two_pow hs (byte_lt_u32 hc))
    (Nat.xor_lt_two_pow ht (byte_lt_u32 hc)) h
  exact xor_right_cancel h2

theorem crcUpd_ne_byte {s c c' : Nat} (hs : s < 2 ^ 32) (hc : c < 2 ^ 32) (hc' : c' < 2 ^ 32)
    (hne : c ≠ c') : crcUpd s c ≠ crcUpd s c' := by
  intro h
  have h2 := crcShift_inj 8 (Nat.xor_lt_two_pow hs hc) (Nat.xor_lt_two_pow hs hc') h
  exact hne (xor_left_cancel h2)

theorem foldl_crcUpd_lt {l : List Nat} {s : Nat} (hs : s < 2 ^ 32)
    (hl : ∀ x ∈ l, x < 256) : l.foldl crcUpd s < 2 ^ 32 := by
  induction l generalizing s with
  | nil => simpa using hs
  | cons c l ih =>
    exact ih (crcUpd_lt hs (hl c (by simp))) (fun x hx => hl x (by simp [hx]))

theorem foldl_crcUpd_inj {l : List Nat} {s t : Nat} (hs : s < 2 ^ 32) (ht : t < 2 ^ 32)
    (hl : ∀ x ∈ l, x < 256) (h : l.foldl crcUpd s = l.foldl crcUpd t) : s = t := by
  induction l generalizing s t with
  | nil => simpa using h
  | cons c l ih =>
    have hc : c < 256 := hl c (by simp)
    have h2 := ih (crcUpd_lt hs hc) (crcUpd_lt ht hc) (fun x hx => hl x (by simp [hx]))
      (by simpa using h)
    exact crcUpd_inj_state hs ht hc h2

theorem crc32_lt {m : List Nat} (hm : ∀ x ∈ m, x < 256) : crc32 m < 2 ^ 32 := by
  unfold crc32
  exact Nat.xor_lt_two_pow (foldl_crcUpd_lt (by norm_num) hm) (by norm_num)

theorem crc32_ne_of_mid_ne {pre suf : List Nat} {c c' : Nat}
    (hpre : ∀ x ∈ pre, x < 256) (hsuf : ∀ x ∈ suf, x < 256)
    (hc : c < 2 ^ 32) (hc' : c' < 2 ^ 32) (hne : c ≠ c') :
    crc32 (pre ++ c :: suf) ≠ crc32 (pre ++ c' :: suf) := by
  unfold crc32
  intro h
  have h1 := xor_right_cancel h
  rw [List.foldl_append, List.foldl_append] at h1
  simp only [List.foldl_cons] at h1
  have hs : pre.foldl crcUpd 0xFFFFFFFF < 2 ^ 32 := foldl_crcUpd_lt (by norm_num) hpre
  have h2 := foldl_crcUpd_inj (s := crcUpd (pre.foldl crcUpd 0xFFFFFFFF) c)
    (t := crcUpd (pre.foldl crcUpd 0xFFFFFFFF) c')
    (crcShift_lt 8 (Nat.xor_lt_two_pow hs hc)) (crcShift_lt 8 (Nat.xor_lt_two_pow hs hc'))
    hsuf h1
  exact crcUpd_ne_byte hs hc hc' hne h2

end Pngme

namespace Pngme

theorem two_pow_lt_u32 {k : Nat} (hk : k < 8) : (2 : Nat) ^ k < 2 ^ 32 := by
  calc (2 : Nat) ^ k ≤ 2 ^ 7 := Nat.pow_le_pow_right (by norm_num) (by omega)
  _ < 2 ^ 32 := by norm_num

theorem crc32_flip_ne {m : List Nat} {j k : Nat} (hm : ∀ x ∈ m, x < 256)
    (hj : j < m.length) (hk : k < 8) :
    crc32 (m.set j (m.getD j 0 ^^^ 2 ^ k)) ≠ crc32 m := by
  have hset : m.set j (m.getD j 0 ^^^ 2 ^ k) =
      m.take j ++ (m.getD j 0 ^^^ 2 ^ k) :: m.drop (j + 1) := by
    rw [List.set_eq_take_append_cons_drop, if_pos hj]
  have hm_eq : m = m.take j ++ m.getD j 0 :: m.drop (j + 1) := by
    conv_lhs => rw [← List.take_append_drop j m]
    rw [List.getD_eq_getElem m 0 hj, List.getElem_cons_drop]
  have hcj : m.getD j 0 < 256 := by
    rw [List.getD_eq_getElem m 0 hj]
    exact hm _ (List.getElem_mem _)
  have hpre : ∀ x ∈ m.take j, x < 256 := fun x hx => hm x (List.take_subset _ _ hx)
  have hsuf : ∀ x ∈ m.drop (j + 1), x < 256 := fun x hx => hm x (List.drop_subset _ _ hx)
  rw [hset]
  conv_rhs => rw [hm_eq]
  exact crc32_ne_of_mid_ne hpre hsuf
    (Nat.xor_lt_two_pow (byte_lt_u32 hcj) (two_pow_lt_u32 hk)) (byte_lt_u32 hcj)
    (xor_two_pow_ne _ _)

theorem take_four {α : Type} (l : List α) (d : α) (h : 4 ≤ l.length) :
    l.take 4 = [l.getD 0 d, l.getD 1 d, l.getD 2 d, l.getD 3 d] :=
  match l, h with
  | a :: b :: c :: e :: r, _ => rfl
  | [], h => by simp at h
  | [a], h => by simp at h
  | [a, b], h => by simp at h
  | [a, b, c], h => by simp at h

theorem drop4_take4 (v : List Nat) (h : 12 ≤ v.length) :
    (v.drop 4).take 4 = [v.getD 4 0, v.getD 5 0, v.getD 6 0, v.getD 7 0] := by
  rw [take_four _ 0 (by
    simp [List.length_drop]
    omega)]
  simp [List.getD_eq_getElem?_getD, List.getElem?_drop]

theorem mid_split (v : List Nat) (h : 12 ≤ v.length) :
    (v.drop 4).take (v.length - 8) =
      [v.getD 4 0, v.getD 5 0, v.getD 6 0, v.getD 7 0] ++ (v.drop 8).take (v.length - 12) := by
  rw [show v.length - 8 = 4 + (v.length - 12) by omega, List.take_add, List.drop_drop,
    drop4_take4 v h]

set_option maxHeartbeats 2000000 in
theorem try_from_spec (v : List Nat) (h : 12 ≤ v.length) :
    Chunk.try_from v =
      if v.drop (v.length - 4) = u32be (crc32 ((v.drop 4).take (v.length - 8)))
      then .ok { chunk_type := ⟨v.getD 4 0, v.getD 5 0, v.getD 6 0, v.getD 7 0⟩,
                 data := (v.drop 8).take (v.length - 12), bytes := v }
      else .error .crcMismatch := by
  have htb := drop4_take4 v h
  have hmid := mid_split v h
  have hlast : (v.drop (v.length - 4)).take (v.length - (v.length - 4)) = v.drop (v.length - 4) := by
    rw [show v.length - (v.length - 4) = 4 by omega]
    exact List.take_of_length_le (by simp [List.length_drop]; omega)
  unfold Chunk.try_from rslice
  rw [if_pos (⟨by norm_num, by omega⟩ : 4 ≤ 8 ∧ 8 ≤ v.length)]
  rw [if_pos (⟨by omega, by omega⟩ : 8 ≤ v.length - 4 ∧ v.length - 4 ≤ v.length)]
  rw [if_pos (⟨by omega, by omega⟩ : v.length - 4 ≤ v.length ∧ v.length ≤ v.length)]
  rw [show (8 : Nat) - 4 = 4 from rfl, htb]
  rw [show v.length - 4 - 8 = v.length - 12 by omega]
  rw [hlast]
  simp only [ChunkType.try_from]
  simp only [Chunk.crc, ChunkType.bytes]
  exact if_congr (iff_of_eq (by rw [hmid])) rfl rfl

theorem try_from_ok_iff (v : List Nat) (h : 12 ≤ v.length) :
    exceptIsOk (Chunk.try_from v) = true ↔
      v.drop (v.length - 4) = u32be (crc32 ((v.drop 4).take (v.length - 8))) := by
  rw [try_from_spec v h]
  by_cases hc : v.drop (v.length - 4) = u32be (crc32 ((v.drop 4).take (v.length - 8)))
  · simp [hc, exceptIsOk]
  · simp [hc, exceptIsOk]

theorem try_from_err (v : List Nat) (h : 12 ≤ v.length)
    (hne : v.drop (v.length - 4) ≠ u32be (crc32 ((v.drop 4).take (v.length - 8)))) :
    Chunk.try_from v = .error .crcMismatch := by
  rw [try_from_spec v h, if_neg hne]

theorem u32be_inj {a b : Nat} (ha : a < 2 ^ 32) (hb : b < 2 ^ 32)
    (h : u32be a = u32be b) : a = b := by
  simp only [u32be, List.cons.injEq, and_true] at h
  omega

theorem mid_subset {v : List Nat} (hb : ∀ x ∈ v, x < 256) :
    ∀ x ∈ (v.drop 4).take (v.length - 8), x < 256 :=
  fun x hx => hb x (List.drop_subset _ _ (List.take_subset _ _ hx))

/-- C1: for inputs of length ≥ 12, parsing succeeds iff the trailing 4 bytes
are the big-endian CRC-32 of bytes 4..len-4; on mismatch the error is the
checksum error; and flipping any single bit in the type/payload region of a
successfully-parsed chunk makes parsing fail with the checksum error. -/
theorem chunk_parse_crc_characterization (v : List Nat)
    (hby : ∀ x ∈ v, x < 256) (hlen : 12 ≤ v.length) :
    (exceptIsOk (Chunk.try_from v) = true ↔
      v.drop (v.length - 4) = u32be (crc32 ((v.drop 4).take (v.length - 8))))
    ∧ (v.drop (v.length - 4) ≠ u32be (crc32 ((v.drop 4).take (v.length - 8))) →
      Chunk.try_from v = .error .crcMismatch)
    ∧ (∀ i k, 4 ≤ i → i + 4 < v.length → k < 8 →
      exceptIsOk (Chunk.try_from v) = true →
      Chunk.try_from (v.set i (v.getD i 0 ^^^ 2 ^ k)) = .error .crcMismatch) := by
  refine ⟨try_from_ok_iff v hlen, try_from_err v hlen, ?_⟩
  intro i k hi4 hiv hk hok
  have hivlt : i < v.length := by omega
  have hgd : v.getD i 0 < 256 := by
    rw [List.getD_eq_getElem v 0 hivlt]
    exact hby _ (List.getElem_mem _)
  have ha256 : v.getD i 0 ^^^ 2 ^ k < 256 :=
    Nat.xor_lt_two_pow (n := 8) (by omega) (by
      calc (2 : Nat) ^ k ≤ 2 ^ 7 := Nat.pow_le_pow_right (by norm_num) (by omega)
      _ < 2 ^ 8 := by norm_num)
  have hlen' : (v.set i (v.getD i 0 ^^^ 2 ^ k)).length = v.length := List.length_set v i _
  have hdropEq : (v.set i (v.getD i 0 ^^^ 2 ^ k)).drop (v.length - 4) = v.drop (v.length - 4) := by
    rw [List.drop_set, if_pos (by omega : i < v.length - 4)]
  have hdrop4 : (v.set i (v.getD i 0 ^^^ 2 ^ k)).drop 4 = (v.drop 4).set (i - 4) (v.getD i 0 ^^^ 2 ^ k) := by
    rw [List.drop_set, if_neg (by omega : ¬i < 4)]
  have hmidset : ((v.set i (v.getD i 0 ^^^ 2 ^ k)).drop 4).take (v.length - 8) =
      ((v.drop 4).take (v.length - 8)).set (i - 4) (v.getD i 0 ^^^ 2 ^ k) := by
    rw [hdrop4, List.set_take]
  have hmidlen : ((v.drop 4).take (v.length - 8)).length = v.length - 8 := by
    simp [List.length_take, List.length_drop]
    omega
  have hgdmid : ((v.drop 4).take (v.length - 8)).getD (i - 4) 0 = v.getD i 0 := by
    rw [List.getD_eq_getElem?_getD, List.getD_eq_getElem?_getD,
      List.getElem?_take, if_pos (by omega : i - 4 < v.length - 8),
      List.getElem?_drop, show 4 + (i - 4) = i by omega]
  have hflip : crc32 (((v.drop 4).take (v.length - 8)).set (i - 4) (v.getD i 0 ^^^ 2 ^ k)) ≠
      crc32 ((v.drop 4).take (v.length - 8)) := by
    rw [show ((v.drop 4).take (v.length - 8)).set (i - 4) (v.getD i 0 ^^^ 2 ^ k) =
        ((v.drop 4).take (v.length - 8)).set (i - 4)
          (((v.drop 4).take (v.length - 8)).getD (i - 4) 0 ^^^ 2 ^ k) by rw [hgdmid]]
    exact crc32_flip_ne (mid_subset hby) (by omega) hk
  have hok' := (try_from_ok_iff v hlen).mp hok
  apply try_from_err
  · rw [hlen']; exact hlen
  · rw [hlen', hdropEq, hmidset, hok']
    intro hcon
    have hmid256 : ∀ x ∈ ((v.drop 4).take (v.length - 8)).set (i - 4) (v.getD i 0 ^^^ 2 ^ k), x < 256 := by
      intro x hx
      rcases List.mem_or_eq_of_mem_set hx with hx2 | hx2
      · exact mid_subset hby x hx2
      · omega
    exact hflip (u32be_inj (crc32_lt (mid_subset hby)) (crc32_lt hmid256) hcon).symm

/-- C1 witness at the concrete 12-byte chunk `sampleChunkBytes`. -/
theorem chunk_parse_crc_characterization_witness :
    exceptIsOk (Chunk.try_from sampleChunkBytes) = true
    ∧ Chunk.try_from (sampleChunkBytes.set 4 (sampleChunkBytes.getD 4 0 ^^^ 2 ^ 0)) =
      .error .crcMismatch := by
  have h := chunk_parse_crc_characterization sampleChunkBytes (by decide) (by decide)
  exact ⟨by decide, h.2.2 4 0 (by decide) (by decide) (by decide) (by decide)⟩

theorem length_u32be (n : Nat) : (u32be n).length = 4 := rfl

/-- C2: parsing the serialization of a freshly built chunk succeeds and
recovers the same type, payload, and checksum. -/
theorem chunk_roundtrip_new_parse (t : ChunkType) (d : List Nat) (hd : d.length < 2 ^ 32) :
    Chunk.try_from (Chunk.new t d).as_bytes =
      .ok { chunk_type := t, data := d, bytes := (Chunk.new t d).as_bytes }
    ∧ (Chunk.mk t d (Chunk.new t d).as_bytes).crc = (Chunk.new t d).crc := by
  refine ⟨?_, rfl⟩
  have hB : (Chunk.new t d).as_bytes =
      u32be (d.length % 2 ^ 32) ++
        ([t.b0, t.b1, t.b2, t.b3] ++ (d ++ u32be (crc32 ([t.b0, t.b1, t.b2, t.b3] ++ d)))) := rfl
  have hlenB : (Chunk.new t d).as_bytes.length = d.length + 12 := by
    rw [hB]; simp [u32be]
  rw [try_from_spec _ (by rw [hlenB]; omega)]
  rw [hlenB, hB]
  have hlast2 : (u32be (d.length % 2 ^ 32) ++
      ([t.b0, t.b1, t.b2, t.b3] ++ (d ++ u32be (crc32 ([t.b0, t.b1, t.b2, t.b3] ++ d))))).drop
        (d.length + 12 - 4) = u32be (crc32 ([t.b0, t.b1, t.b2, t.b3] ++ d)) := by
    rw [show u32be (d.length % 2 ^ 32) ++
        ([t.b0, t.b1, t.b2, t.b3] ++ (d ++ u32be (crc32 ([t.b0, t.b1, t.b2, t.b3] ++ d)))) =
        (u32be (d.length % 2 ^ 32) ++ ([t.b0, t.b1, t.b2, t.b3] ++ d)) ++
          u32be (crc32 ([t.b0, t.b1, t.b2, t.b3] ++ d)) by simp [List.append_assoc]]
    exact List.drop_left' (by simp [u32be])
  have hmid2 : ((u32be (d.length % 2 ^ 32) ++
      ([t.b0, t.b1, t.b2, t.b3] ++ (d ++ u32be (crc32 ([t.b0, t.b1, t.b2, t.b3] ++ d))))).drop 4).take
        (d.length + 12 - 8) = [t.b0, t.b1, t.b2, t.b3] ++ d := by
    rw [List.drop_left' (length_u32be _)]
    rw [show [t.b0, t.b1, t.b2, t.b3] ++ (d ++ u32be (crc32 ([t.b0, t.b1, t.b2, t.b3] ++ d))) =
        ([t.b0, t.b1, t.b2, t.b3] ++ d) ++ u32be (crc32 ([t.b0, t.b1, t.b2, t.b3] ++ d)) by
      simp [List.append_assoc]]
    exact List.take_left' (by simp)
  have hdata2 : ((u32be (d.length % 2 ^ 32) ++
      ([t.b0, t.b1, t.b2, t.b3] ++ (d ++ u32be (crc32 ([t.b0, t.b1, t.b2, t.b3] ++ d))))).drop 8).take
        (d.length + 12 - 12) = d := by
    rw [show u32be (d.length % 2 ^ 32) ++
        ([t.b0, t.b1, t.b2, t.b3] ++ (d ++ u32be (crc32 ([t.b0, t.b1, t.b2, t.b3] ++ d)))) =
        (u32be (d.length % 2 ^ 32) ++ [t.b0, t.b1, t.b2, t.b3]) ++
          (d ++ u32be (crc32 ([t.b0, t.b1, t.b2, t.b3] ++ d))) by simp [List.append_assoc]]
    rw [List.drop_left' (by simp [u32be])]
    rw [show d.length + 12 - 12 = d.length by omega]
    exact List.take_left' rfl
  have hg : ∀ j, j < 4 → (u32be (d.length % 2 ^ 32) ++
      ([t.b0, t.b1, t.b2, t.b3] ++ (d ++ u32be (crc32 ([t.b0, t.b1, t.b2, t.b3] ++ d))))).getD
        (4 + j) 0 = [t.b0, t.b1, t.b2, t.b3].getD j 0 := by
    intro j hj
    rw [List.getD_eq_getElem?_getD, List.getD_eq_getElem?_getD,
      List.getElem?_append_right (by simp [u32be] : (u32be (d.length % 2 ^ 32)).length ≤ 4 + j),
      show 4 + j - (u32be (d.length % 2 ^ 32)).length = j by simp [u32be],
      List.getElem?_append_left (by simp; omega)]
  rw [hlast2, hmid2, hdata2]
  have hg4 : (u32be (d.length % 2 ^ 32) ++
      ([t.b0, t.b1, t.b2, t.b3] ++ (d ++ u32be (crc32 ([t.b0, t.b1, t.b2, t.b3] ++ d))))).getD 4 0 =
      t.b0 := by simpa using hg 0 (by norm_num)
  have hg5 : (u32be (d.length % 2 ^ 32) ++
      ([t.b0, t.b1, t.b2, t.b3] ++ (d ++ u32be (crc32 ([t.b0, t.b1, t.b2, t.b3] ++ d))))).getD 5 0 =
      t.b1 := by simpa using hg 1 (by norm_num)
  have hg6 : (u32be (d.length % 2 ^ 32) ++
      ([t.b0, t.b1, t.b2, t.b3] ++ (d ++ u32be (crc32 ([t.b0, t.b1, t.b2, t.b3] ++ d))))).getD 6 0 =
      t.b2 := by simpa using hg 2 (by norm_num)
  have hg7 : (u32be (d.length % 2 ^ 32) ++
      ([t.b0, t.b1, t.b2, t.b3] ++ (d ++ u32be (crc32 ([t.b0, t.b1, t.b2, t.b3] ++ d))))).getD 7 0 =
      t.b3 := by simpa using hg 3 (by norm_num)
  rw [hg4, hg5, hg6, hg7, if_pos rfl]

/-- C2 witness at type `"RuSt"` and the empty payload. -/
theorem chunk_roundtrip_new_parse_witness :
    Chunk.try_from (Chunk.new ⟨82, 117, 83, 116⟩ []).as_bytes =
      .ok { chunk_type := ⟨82, 117, 83, 116⟩, data := [],
            bytes := (Chunk.new ⟨82, 117, 83, 116⟩ []).as_bytes } :=
  (chunk_roundtrip_new_parse ⟨82, 117, 83, 116⟩ [] (by simp)).1

/-- C3 counterexample: `badLenChunkBytes` (length field 1, actual payload
empty) parses successfully, yet re-serializing the parsed chunk does not
reproduce the input bytes. -/
theorem chunk_parse_serialize_not_id_cex :
    exceptIsOk (Chunk.try_from badLenChunkBytes) = true
    ∧ Except.map Chunk.as_bytes (Chunk.try_from badLenChunkBytes) ≠ .ok badLenChunkBytes :=
  ⟨by decide, by decide⟩

/-- C3 amended: parse-then-serialize is the identity on successfully parsed
inputs whose 4-byte length field actually encodes the payload length. -/
theorem chunk_parse_serialize_id_of_length_field (v : List Nat) (h12 : 12 ≤ v.length)
    (hfield : v.take 4 = u32be ((v.length - 12) % 2 ^ 32))
    (c : Chunk) (hok : Chunk.try_from v = .ok c) : c.as_bytes = v := by
  rw [try_from_spec v h12] at hok
  by_cases hc : v.drop (v.length - 4) = u32be (crc32 ((v.drop 4).take (v.length - 8)))
  · rw [if_pos hc] at hok
    cases hok
    have hdatalen : ((v.drop 8).take (v.length - 12)).length = v.length - 12 := by
      simp [List.length_take, List.length_drop]
      omega
    simp only [Chunk.as_bytes, Chunk.length, Chunk.crc, ChunkType.bytes, hdatalen]
    rw [← mid_split v h12, ← hc, ← hfield]
    conv_rhs => rw [← List.take_append_drop 4 v]
    have hsplit2 : v.drop 4 = (v.drop 4).take (v.length - 8) ++ v.drop (v.length - 4) := by
      conv_lhs => rw [← List.take_append_drop (v.length - 8) (v.drop 4)]
      rw [List.drop_drop, show 4 + (v.length - 8) = v.length - 4 by omega]
    conv_rhs => rw [hsplit2, mid_split v h12]
    simp [List.append_assoc]
  · rw [if_neg hc] at hok
    cases hok

/-- C3 amended witness at the concrete valid chunk `sampleChunkBytes`. -/
theorem chunk_parse_serialize_id_of_length_field_witness :
    (Chunk.mk ⟨82, 117, 83, 116⟩ [] sampleChunkBytes).as_bytes = sampleChunkBytes :=
  chunk_parse_serialize_id_of_length_field sampleChunkBytes (by decide) (by decide) _ (by decide)

/-- C4: the code panics (out-of-bounds slice) on every input shorter than
12 bytes; it does not return a typed error. -/
theorem chunk_parse_short_panics (v : List Nat) (h : v.length < 12) :
    Chunk.try_from v = .error .oobPanic := by
  unfold Chunk.try_from rslice
  by_cases h8 : 8 ≤ v.length
  · rw [if_pos (⟨by norm_num, h8⟩ : 4 ≤ 8 ∧ 8 ≤ v.length)]
    rw [show (8 : Nat) - 4 = 4 from rfl,
      take_four (v.drop 4) 0 (by simp [List.length_drop]; omega)]
    rw [if_neg (by omega : ¬(8 ≤ v.length - 4 ∧ v.length - 4 ≤ v.length))]
    rfl
  · rw [if_neg (by omega : ¬(4 ≤ 8 ∧ 8 ≤ v.length))]

/-- C4 witness at a 5-byte input. -/
theorem chunk_parse_short_panics_witness :
    Chunk.try_from [0, 0, 0, 0, 0] = .error .oobPanic :=
  chunk_parse_short_panics [0, 0, 0, 0, 0] (by decide)

theorem charUtf8_ascii {c : Char} (h : c.toNat < 128) : charUtf8 c = [c.toNat] := by
  unfold charUtf8
  rw [if_pos (by omega)]

theorem char_alpha_lt {c : Char} (h : char_is_ascii_alphabetic c = true) : c.toNat < 128 := by
  simp [char_is_ascii_alphabetic] at h
  omega

theorem strBytes_ascii {s : List Char} (h : ∀ c ∈ s, char_is_ascii_alphabetic c = true) :
    strBytes s = s.map Char.toNat := by
  induction s with
  | nil => rfl
  | cons c s ih =>
    have ih2 := ih (fun x hx => h x (by simp [hx]))
    simp only [strBytes, List.flatMap_cons, List.map_cons] at ih2 ⊢
    rw [charUtf8_ascii (char_alpha_lt (h c (by simp))), ih2]
    rfl

theorem from_str_ok_iff (s : List Char) :
    exceptIsOk (ChunkType.from_str s) = true ↔
      s.length = 4 ∧ s.all char_is_ascii_alphabetic = true := by
  unfold ChunkType.from_str
  by_cases hall : s.all char_is_ascii_alphabetic = true
  · have hb : strBytes s = s.map Char.toNat :=
      strBytes_ascii (fun c hc => by
        have := List.all_eq_true.mp hall c hc
        exact this)
    have hlen : (strBytes s).length = s.length := by rw [hb]; simp
    by_cases h4 : s.length = 4
    · rw [if_neg (by omega), if_neg (by simp [hall])]
      simp [exceptIsOk, h4, hall]
    · rw [if_pos (by omega)]
      simp [exceptIsOk, h4]
  · by_cases hlb : (strBytes s).length ≠ 4
    · rw [if_pos hlb]
      simp [exceptIsOk]
      intro h4
      simpa using hall
    · rw [if_neg hlb, if_pos (by simp [hall])]
      simp [exceptIsOk]
      intro h4
      simpa using hall

theorem from_str_ok_bytes {s : List Char} {t : ChunkType}
    (h : ChunkType.from_str s = .ok t) : t.bytes = s.map Char.toNat := by
  have hok : exceptIsOk (ChunkType.from_str s) = true := by rw [h]; rfl
  obtain ⟨h4, hall⟩ := (from_str_ok_iff s).mp hok
  have hb : strBytes s = s.map Char.toNat :=
    strBytes_ascii (fun c hc => List.all_eq_true.mp hall c hc)
  have hlen : (strBytes s).length = 4 := by rw [hb]; simp [h4]
  unfold ChunkType.from_str at h
  rw [if_neg (by omega), if_neg (by simp [hall])] at h
  cases h
  show [(strBytes s).getD 0 0, (strBytes s).getD 1 0,
    (strBytes s).getD 2 0, (strBytes s).getD 3 0] = s.map Char.toNat
  rw [← take_four (strBytes s) 0 (by omega), List.take_of_length_le (by omega), hb]

theorem from_str_ok_alpha {s : List Char} {t : ChunkType}
    (h : ChunkType.from_str s = .ok t) :
    ∀ x ∈ t.bytes, byte_is_ascii_alphabetic x = true := by
  have hok : exceptIsOk (ChunkType.from_str s) = true := by rw [h]; rfl
  obtain ⟨h4, hall⟩ := (from_str_ok_iff s).mp hok
  rw [from_str_ok_bytes h]
  intro x hx
  obtain ⟨c, hc, rfl⟩ := List.mem_map.mp hx
  have := List.all_eq_true.mp hall c hc
  simp [char_is_ascii_alphabetic] at this
  simp [byte_is_ascii_alphabetic]
  omega

theorem alpha_up_iff {b : Nat} (h : byte_is_ascii_alphabetic b = true) :
    is_uppercase b = true ↔ b.testBit 5 = false := by
  simp [byte_is_ascii_alphabetic] at h
  simp [is_uppercase, Nat.testBit_to_div_mod]
  omega

theorem alpha_low_iff {b : Nat} (h : byte_is_ascii_alphabetic b = true) :
    is_lowercase b = true ↔ b.testBit 5 = true := by
  simp [byte_is_ascii_alphabetic] at h
  simp [is_lowercase, Nat.testBit_to_div_mod]
  omega

/-- C5 counterexample: the raw-byte constructor performs no validation: the
4 bytes of `"0000"` (not ASCII alphabetic) are accepted. -/
theorem chunk_type_raw_no_validation_cex :
    ChunkType.try_from [48, 48, 48, 48] = .ok ⟨48, 48, 48, 48⟩
    ∧ byte_is_ascii_alphabetic 48 = false :=
  ⟨rfl, by decide⟩

/-- C5 amended: only the text construction path validates: values produced
by from_str have all 4 bytes ASCII alphabetic, while try_from on raw bytes
accepts any 4 bytes unchanged. -/
theorem chunk_type_construction_validation :
    (∀ b0 b1 b2 b3 : Nat, ChunkType.try_from [b0, b1, b2, b3] = .ok ⟨b0, b1, b2, b3⟩)
    ∧ (∀ (s : List Char) (t : ChunkType), ChunkType.from_str s = .ok t →
        ∀ x ∈ t.bytes, byte_is_ascii_alphabetic x = true) :=
  ⟨fun _ _ _ _ => rfl, fun _ _ ht => from_str_ok_alpha ht⟩

/-- C5 amended witness: raw bytes 48 accepted; the text-built `"RuSt"` value
has alphabetic bytes. -/
theorem chunk_type_construction_validation_witness :
    ChunkType.try_from [48, 48, 48, 48] = .ok ⟨48, 48, 48, 48⟩
    ∧ byte_is_ascii_alphabetic 82 = true :=
  ⟨chunk_type_construction_validation.1 48 48 48 48,
    chunk_type_construction_validation.2 (String.toList "RuSt") ⟨82, 117, 83, 116⟩
      (by decide) 82 (by decide)⟩

/-- C6: from_str succeeds iff the input is exactly 4 ASCII-alphabetic
characters, and on success the stored bytes are the string's bytes;
`"RuSt"` succeeds, `"Ru1t"` and `"Ru"` fail. -/
theorem chunk_type_from_str_iff (s : List Char) :
    (exceptIsOk (ChunkType.from_str s) = true ↔
      s.length = 4 ∧ s.all char_is_ascii_alphabetic = true)
    ∧ (∀ t, ChunkType.from_str s = .ok t → t.bytes = s.map Char.toNat)
    ∧ exceptIsOk (ChunkType.from_str (String.toList "RuSt")) = true
    ∧ exceptIsOk (ChunkType.from_str (String.toList "Ru1t")) = false
    ∧ exceptIsOk (ChunkType.from_str (String.toList "Ru")) = false :=
  ⟨from_str_ok_iff s, fun _ ht => from_str_ok_bytes ht, by decide, by decide, by decide⟩

/-- C6 witness at `"RuSt"`. -/
theorem chunk_type_from_str_iff_witness :
    ChunkType.from_str (String.toList "RuSt") = .ok ⟨82, 117, 83, 116⟩
    ∧ (ChunkType.mk 82 117 83 116).bytes = (String.toList "RuSt").map Char.toNat :=
  ⟨by decide,
    (chunk_type_from_str_iff (String.toList "RuSt")).2.1 ⟨82, 117, 83, 116⟩ (by decide)⟩


/-- C7 counterexample: for raw type bytes [64,117,83,116], bit 5 of byte 0
(64 = 0x40 = the character `@`) is clear, yet is_critical is false, because
the Rust code tests Unicode uppercase, not bit 5. -/
theorem chunk_type_flags_not_bit5_cex :
    (ChunkType.mk 64 117 83 116).is_critical = false
    ∧ Nat.testBit 64 5 = false := by decide

/-- C7 amended: for chunk types whose bytes are ASCII alphabetic, the four
flags agree with the bit-5 characterization; the `"RuSt"` example holds. -/
theorem chunk_type_flags_bit5_alpha (t : ChunkType)
    (h0 : byte_is_ascii_alphabetic t.b0 = true)
    (h1 : byte_is_ascii_alphabetic t.b1 = true)
    (h2 : byte_is_ascii_alphabetic t.b2 = true)
    (h3 : byte_is_ascii_alphabetic t.b3 = true) :
    (t.is_critical = true ↔ t.b0.testBit 5 = false)
    ∧ (t.is_public = true ↔ t.b1.testBit 5 = false)
    ∧ (t.is_reserved_bit_valid = true ↔ t.b2.testBit 5 = false)
    ∧ (t.is_safe_to_copy = true ↔ t.b3.testBit 5 = true)
    ∧ ((ChunkType.mk 82 117 83 116).is_critical = true
      ∧ (ChunkType.mk 82 117 83 116).is_public = false
      ∧ (ChunkType.mk 82 117 83 116).is_reserved_bit_valid = true
      ∧ (ChunkType.mk 82 117 83 116).is_safe_to_copy = true) :=
  ⟨alpha_up_iff h0, alpha_up_iff h1, alpha_up_iff h2, alpha_low_iff h3, by decide⟩

/-- C7 amended witness at `"RuSt"`. -/
theorem chunk_type_flags_bit5_alpha_witness :
    (ChunkType.mk 82 117 83 116).is_critical = true ↔ Nat.testBit 82 5 = false :=
  (chunk_type_flags_bit5_alpha ⟨82, 117, 83, 116⟩
    (by decide) (by decide) (by decide) (by decide)).1

/-- C8: is_valid is exactly not-public and reserved-bit-valid; `"RuSt"` is
valid and `"Rust"` is not. -/
theorem chunk_type_is_valid_def (t : ChunkType) :
    t.is_valid = (!t.is_public && t.is_reserved_bit_valid)
    ∧ (ChunkType.mk 82 117 83 116).is_valid = true
    ∧ (ChunkType.mk 82 117 115 116).is_valid = false :=
  ⟨rfl, by decide, by decide⟩


/-- C9: the reference chunk (type `"RuSt"`, 42-byte secret message) has
length 42 and CRC 2882656334. -/
theorem chunk_reference_vector :
    (Chunk.new ⟨82, 117, 83, 116⟩ secret_message_bytes).length = 42
    ∧ (Chunk.new ⟨82, 117, 83, 116⟩ secret_message_bytes).crc = 2882656334 := by
  constructor
  · decide
  · decide


/-- C10: new accepts any payload; length is the payload size reduced mod
2^32 and the serialized length field encodes that reduced value, so for a
payload of at least 2^32 bytes the length field disagrees with the actual
payload size. -/
theorem chunk_new_length_truncation (t : ChunkType) (d : List Nat) :
    (Chunk.new t d).data = d
    ∧ (Chunk.new t d).length = d.length % 2 ^ 32
    ∧ (Chunk.new t d).as_bytes.take 4 = u32be ((Chunk.new t d).length)
    ∧ (2 ^ 32 ≤ d.length → (Chunk.new t d).length ≠ d.length) := by
  refine ⟨rfl, rfl, ?_, ?_⟩
  · show (u32be (d.length % 2 ^ 32) ++
      ([t.b0, t.b1, t.b2, t.b3] ++ (d ++ u32be (crc32 ([t.b0, t.b1, t.b2, t.b3] ++ d))))).take 4 =
      u32be (d.length % 2 ^ 32)
    exact List.take_left' (length_u32be _)
  · intro h
    show d.length % 2 ^ 32 ≠ d.length
    have hm : d.length % 2 ^ 32 < 2 ^ 32 := Nat.mod_lt _ (by norm_num)
    omega

/-- C10 witness at a payload of exactly 2^32 zero bytes. -/
theorem chunk_new_length_truncation_witness :
    2 ^ 32 ≤ (List.replicate (2 ^ 32) 0).length
    ∧ (Chunk.new ⟨82, 117, 83, 116⟩ (List.replicate (2 ^ 32) (0 : Nat))).length ≠
      (List.replicate (2 ^ 32) (0 : Nat)).length :=
  ⟨(List.length_replicate _ _).ge,
    (chunk_new_length_truncation ⟨82, 117, 83, 116⟩ (List.replicate (2 ^ 32) 0)).2.2.2
      (List.length_replicate _ _).ge⟩

end Pngme
